import Mathlib

/-!
Verification development for the FiberValidator request-body validation
middleware. Go strings are modelled as byte lists (`GoStr`); the host
framework request is modelled by `Request` (declared content type, raw body,
and the decode outcome of the standard JSON/XML decoders, which are external
to the repository and therefore modelled from the spec). Machine integers
(Go `int` on a 64-bit platform) are modelled as `Int` with the explicit
clamping `strconv` performs at the 2^63 boundary.
-/

namespace FiberValidator

/-- A Go string: a list of byte values (each < 256 in every real string;
the model does not need the bound). -/
abbrev GoStr := List Nat

/-- Bytes of an ASCII Lean string literal (used only on ASCII literals,
where code points and UTF-8 bytes coincide). -/
def strBytes (s : String) : GoStr := s.data.map Char.toNat

/-! ## UTF-8 decoding and Go rune lowercasing

`strings.ToLower` and `for _, r := range s` operate on runes. The decoder
below follows UTF-8 (invalid sequences yield U+FFFD and consume one byte,
as Go's `unicode/utf8` does). The rune case map is modelled from the spec
(the source delegates to the standard library, which is outside the
repository): it covers ASCII plus the non-ASCII simple mappings this
development exercises — U+0130 lowercases to U+0069 (a shorter UTF-8
encoding) and U+023A lowercases to U+2C65 (a longer one) — and is the
identity elsewhere. -/

/-- Is a byte a UTF-8 continuation byte (10xxxxxx)? -/
def isCont (b : Nat) : Bool := decide (128 ≤ b ∧ b < 192)

/-- Decoder worker, structurally recursive on a fuel bound (one unit of fuel
per consumed lead byte; `utf8Decode` supplies `length s`, always enough). -/
def utf8DecodeAux : Nat → GoStr → List Nat
  | 0, _ => []
  | _ + 1, [] => []
  | fuel + 1, b :: rest =>
    if b < 128 then b :: utf8DecodeAux fuel rest
    else if b < 194 then 0xFFFD :: utf8DecodeAux fuel rest
    else if b < 224 then
      match rest with
      | [] => [0xFFFD]
      | b1 :: rest2 =>
        if isCont b1 then ((b - 192) * 64 + (b1 - 128)) :: utf8DecodeAux fuel rest2
        else 0xFFFD :: utf8DecodeAux fuel (b1 :: rest2)
    else if b < 240 then
      match rest with
      | b1 :: b2 :: rest3 =>
        if isCont b1 ∧ isCont b2 ∧ (b = 224 → 160 ≤ b1) ∧ (b = 237 → b1 < 160) then
          ((b - 224) * 4096 + (b1 - 128) * 64 + (b2 - 128)) :: utf8DecodeAux fuel rest3
        else 0xFFFD :: utf8DecodeAux fuel rest
      | _ => 0xFFFD :: utf8DecodeAux fuel rest
    else if b < 245 then
      match rest with
      | b1 :: b2 :: b3 :: rest4 =>
        if isCont b1 ∧ isCont b2 ∧ isCont b3 ∧ (b = 240 → 144 ≤ b1) ∧ (b = 244 → b1 < 144) then
          ((b - 240) * 262144 + (b1 - 128) * 4096 + (b2 - 128) * 64 + (b3 - 128))
            :: utf8DecodeAux fuel rest4
        else 0xFFFD :: utf8DecodeAux fuel rest
      | _ => 0xFFFD :: utf8DecodeAux fuel rest
    else 0xFFFD :: utf8DecodeAux fuel rest

/-- Decode a byte list into the rune list Go's range-over-string yields. -/
def utf8Decode (s : GoStr) : List Nat := utf8DecodeAux s.length s

/-- Re-encode a rune as UTF-8 bytes. -/
def utf8EncodeRune (r : Nat) : GoStr :=
  if r < 0x80 then [r]
  else if r < 0x800 then [192 + r / 64, 128 + r % 64]
  else if r < 0x10000 then [224 + r / 4096, 128 + (r / 64) % 64, 128 + r % 64]
  else [240 + r / 262144, 128 + (r / 4096) % 64, 128 + (r / 64) % 64, 128 + r % 64]

/-- Modelled from the spec: `unicode.ToLower` simple case mapping as used by
`strings.ToLower` ("Lowercase both body and field name"), restricted to
ASCII letters plus the two non-ASCII mappings this development exercises
(identity on all other runes). -/
def goToLowerRune (r : Nat) : Nat :=
  if 65 ≤ r ∧ r ≤ 90 then r + 32
  else if r = 0x130 then 0x69
  else if r = 0x23A then 0x2C65
  else r

/-- Modelled from the spec: `strings.ToLower` — decode the runes, lowercase
each, re-encode. The result's byte length can differ from the input's. -/
def goToLower (s : GoStr) : GoStr :=
  (utf8Decode s).flatMap (fun r => utf8EncodeRune (goToLowerRune r))

/-! ## Byte/string helpers used by the extractors -/

/-- The key/value separator bytes skipped after a field name: space, `:`, `=`. -/
def isSepByte (b : Nat) : Bool := b == 32 || b == 58 || b == 61

/-- The bytes ending a value in the number-only extractor: `&`, LF, CR. -/
def isValueEndByte (b : Nat) : Bool := b == 38 || b == 10 || b == 13

/-- Modelled from the spec: the ASCII whitespace set `strings.TrimSpace`
trims (the bodies this development evaluates contain no non-ASCII spaces). -/
def isSpaceByte (b : Nat) : Bool :=
  b == 9 || b == 10 || b == 11 || b == 12 || b == 13 || b == 32

/-- Modelled from the spec: `strings.TrimSpace` — drop leading and trailing
whitespace bytes. -/
def trimSpace (s : GoStr) : GoStr :=
  ((s.dropWhile isSpaceByte).reverse.dropWhile isSpaceByte).reverse

/-- Helper for `goIndex`: offset of the first position where `sub` is a
prefix of the remaining list. -/
def goIndexAux (sub : GoStr) : GoStr → Option Nat
  | [] => if sub.isPrefixOf ([] : GoStr) then some 0 else none
  | b :: t =>
    if sub.isPrefixOf (b :: t) then some 0
    else (goIndexAux sub t).map (· + 1)

/-- `strings.Index(s, sub)`: byte offset of the first occurrence of `sub`
in `s`, `none` for Go's `-1`. -/
def goIndex (s sub : GoStr) : Option Nat := goIndexAux sub s

/-- The Go slice `s[i:j]` (meaningful when `i ≤ j ≤ len s`; callers guard
the bounds exactly where Go would panic). -/
def goSlice (s : GoStr) (i j : Nat) : GoStr := (s.take j).drop i

/-- The separator-skipping loop of both extractors: advance `pos` over the
run of space/`:`/`=` bytes of `body` (stopping at the body's end). -/
def skipSeps (body : GoStr) (pos : Nat) : Nat :=
  pos + ((body.drop pos).takeWhile isSepByte).length

/-- The value-end loop of `extractFieldValueForNumberOnly`: the first index
at or after `start` holding `&`, LF or CR, else `len body`. -/
def findAmpEnd (body : GoStr) (start : Nat) : Nat :=
  match (body.drop start).findIdx? (fun b => isValueEndByte b) with
  | some i => start + i
  | none => body.length

/-! ## Rule configurations (the data of the three Restrictor types) -/

/-- RestrictUnicode: restricts the use of Unicode characters in the
configured fields. -/
structure RestrictUnicode where
  Fields : List GoStr
deriving DecidableEq

/-- RestrictNumberOnly (the MaxDigits-bearing variant): number-only fields
with optional maximum value and maximum digit count (`*int` modelled as
`Option Int`). -/
structure RestrictNumberOnly where
  Fields : List GoStr
  Max : Option Int
  MaxDigits : Option Int
deriving DecidableEq

/-- RestrictStringLength: string fields with an optional maximum length. -/
structure RestrictStringLength where
  Fields : List GoStr
  MaxLength : Option Int
deriving DecidableEq

/-- The value-end loop of `extractFieldValue`: walk the configured fields in
list order; for the first field other than `field` whose lowercased name
occurs in `bodyLower` at or after `valueStart`, stop there (`break`); if no
configured field matches, keep the default `len body`. -/
def findEnd (bodyLower : GoStr) (valueStart : Nat) (field : GoStr) (dflt : Nat) :
    List GoStr → Nat
  | [] => dflt
  | f :: fs =>
    if f ≠ field then
      match goIndex (bodyLower.drop valueStart) (goToLower f) with
      | some e => valueStart + e
      | none => findEnd bodyLower valueStart field dflt fs
    else findEnd bodyLower valueStart field dflt fs

/-- `extractFieldValue` (unicode_helper.go): extract a field's value from an
unstructured body. Returns `none` exactly where the Go code would panic with
an out-of-range slice: `bodyLower[valueStartPos:]` needs
`valueStartPos ≤ len bodyLower` and is evaluated as soon as the field loop
reaches a configured field other than the target; the final
`body[valueStartPos:valueEndPos]` needs
`valueStartPos ≤ valueEndPos ≤ len body`. -/
def extractFieldValue (body field : GoStr) (r : RestrictUnicode) : Option GoStr :=
  let fieldLower := goToLower field
  let bodyLower := goToLower body
  match goIndex bodyLower fieldLower with
  | none => some []
  | some startPos =>
    let valueStartPos := skipSeps body (startPos + fieldLower.length)
    if bodyLower.length < valueStartPos ∧ r.Fields.any (fun f => decide (f ≠ field)) then
      none
    else
      let valueEndPos := findEnd bodyLower valueStartPos field body.length r.Fields
      if valueStartPos ≤ valueEndPos ∧ valueEndPos ≤ body.length then
        some (trimSpace (goSlice body valueStartPos valueEndPos))
      else none

/-- `extractFieldValueForNumberOnly` (number_helper.go): like
`extractFieldValue` but the value ends at the first `&`, LF or CR. Returns
`none` exactly where the Go code would panic on the final slice. -/
def extractFieldValueForNumberOnly (body field : GoStr) : Option GoStr :=
  let fieldLower := goToLower field
  let bodyLower := goToLower body
  match goIndex bodyLower fieldLower with
  | none => some []
  | some startPos =>
    let valueStartPos := skipSeps body (startPos + fieldLower.length)
    let valueEndPos := findAmpEnd body valueStartPos
    if valueStartPos ≤ valueEndPos ∧ valueEndPos ≤ body.length then
      some (trimSpace (goSlice body valueStartPos valueEndPos))
    else none

/-- `containsUnicode`: any byte above the ASCII range. -/
def containsUnicode (s : GoStr) : Bool := s.any (fun b => decide (127 < b))

/-- Is a byte an ASCII digit `0`..`9`? -/
def isDigitByte (b : Nat) : Bool := decide (48 ≤ b ∧ b ≤ 57)

/-- `isNumberOnly`: every rune of the string is in `numericStart..numericEnd`
(`0`..`9`). Iteration is over runes, as Go's range-over-string is. -/
def isNumberOnly (s : GoStr) : Bool :=
  (utf8Decode s).all (fun r => decide (48 ≤ r ∧ r ≤ 57))

/-! ## Go integers, `strconv.Atoi` and `strconv.Itoa` -/

/-- The largest Go `int` on the 64-bit platforms the repository targets. -/
def maxInt : Int := 9223372036854775807

/-- The smallest Go `int`. -/
def minInt : Int := -9223372036854775808

/-- Numeric value of a digit string (most significant digit first). -/
def digVal (s : GoStr) : Nat := s.foldl (fun a b => a * 10 + (b - 48)) 0

/-- Modelled from the spec: the value `num, _ := strconv.Atoi(s)` leaves in
`num` ("converted to its integer value"): 0 on a syntax error (empty or
non-digit input), the value itself when in range, and the maximum-magnitude
`int` of the matching sign when out of range (`strconv.ParseInt` clamps on
`ErrRange`). -/
def goAtoi (s : GoStr) : Int :=
  match s with
  | 45 :: rest =>
    if rest ≠ [] ∧ rest.all isDigitByte then
      if (digVal rest : Int) > 9223372036854775808 then minInt else -(digVal rest : Int)
    else 0
  | _ =>
    if s ≠ [] ∧ s.all isDigitByte then
      if (digVal s : Int) > maxInt then maxInt else (digVal s : Int)
    else 0

/-- Decimal digits of a `Nat`, most significant first; the extra fuel
argument makes the recursion structural (any fuel above the digit count
gives the same answer; `goItoa` passes `n + 1`). -/
def natDigitsAux : Nat → Nat → GoStr
  | 0, _ => []
  | fuel + 1, n => if n < 10 then [48 + n] else natDigitsAux fuel (n / 10) ++ [48 + n % 10]

/-- Modelled from the spec: `strconv.Itoa` — decimal rendering with a
leading `-` for negative values. -/
def goItoa (n : Int) : GoStr :=
  if n < 0 then 45 :: natDigitsAux (n.natAbs + 1) n.natAbs
  else natDigitsAux (n.toNat + 1) n.toNat

/-! ## Error values and message constants (from the errors file)

Message formats are those of the source constants; an apostrophe is byte
39. `fmt.Sprintf` with `%s`/`%d` is concatenation with `goItoa`. -/

/-- A validation error: `Error{Status, Message}` built by `NewError`. -/
structure GoErr where
  status : Int
  message : GoStr
deriving DecidableEq

/-- ErrInvalidJSONBody. -/
def ErrInvalidJSONBody : GoStr := strBytes "Invalid JSON request body"

/-- ErrInvalidXMLBody. -/
def ErrInvalidXMLBody : GoStr := strBytes "Invalid XML request body"

/-- A field name wrapped in apostrophes, as the `%s` sites interpolate it. -/
def quoteField (f : GoStr) : GoStr := 39 :: (f ++ [39])

/-- ErrUnicodeNotAllowedInField applied to a field name. -/
def errUnicodeNotAllowedInField (field : GoStr) : GoStr :=
  strBytes "Unicode characters are not allowed in the " ++ quoteField field
    ++ strBytes " field"

/-- ErrFieldMustContainNumbersOnly applied to the joined offending fields. -/
def errFieldMustContainNumbersOnly (fields : GoStr) : GoStr :=
  strBytes "The " ++ quoteField fields ++ strBytes " field must contain only numbers"

/-- ErrFieldExceedsMaximumValue applied to a field name and bound. -/
def errFieldExceedsMaximumValue (field : GoStr) (n : Int) : GoStr :=
  strBytes "The " ++ quoteField field ++ strBytes " field must not exceed " ++ goItoa n

/-- ErrFieldExceedsMaximumDigits applied to a field name and bound. -/
def errFieldExceedsMaximumDigits (field : GoStr) (n : Int) : GoStr :=
  strBytes "The " ++ quoteField field ++ strBytes " field must not exceed "
    ++ goItoa n ++ strBytes " digits"

/-- ErrFieldExceedsMaximumLength applied to a field name and bound. -/
def errFieldExceedsMaximumLength (field : GoStr) (n : Int) : GoStr :=
  strBytes "The " ++ quoteField field ++ strBytes " field must not exceed "
    ++ goItoa n ++ strBytes " characters"

/-- `strings.Join(fields, "', '")`: the separator is apostrophe, comma,
space, apostrophe. -/
def joinInvalidFields : List GoStr → GoStr
  | [] => []
  | [f] => f
  | f :: fs => f ++ [39, 44, 32, 39] ++ joinInvalidFields fs

/-! ## Content-type classification (restrictByContentType) -/

/-- fiber.MIMEApplicationJSON. -/
def MIMEApplicationJSON : GoStr := strBytes "application/json"

/-- fiber.MIMEApplicationJSONCharsetUTF8. -/
def MIMEApplicationJSONCharsetUTF8 : GoStr := strBytes "application/json; charset=utf-8"

/-- fiber.MIMEApplicationXML. -/
def MIMEApplicationXML : GoStr := strBytes "application/xml"

/-- fiber.MIMEApplicationXMLCharsetUTF8. -/
def MIMEApplicationXMLCharsetUTF8 : GoStr := strBytes "application/xml; charset=utf-8"

/-- fiber.MIMETextXML. -/
def MIMETextXML : GoStr := strBytes "text/xml"

/-- fiber.MIMETextXMLCharsetUTF8. -/
def MIMETextXMLCharsetUTF8 : GoStr := strBytes "text/xml; charset=utf-8"

/-- The three handling branches the classifier selects among. -/
inductive Branch
  | json
  | xml
  | other
deriving DecidableEq

/-- `restrictByContentType`'s switch on the declared content type
(`RestrictUnicode.Restrict` inlines the identical switch). -/
def restrictByContentType (contentType : GoStr) : Branch :=
  if contentType = MIMEApplicationJSON ∨ contentType = MIMEApplicationJSONCharsetUTF8 then
    .json
  else if contentType = MIMEApplicationXML ∨ contentType = MIMEApplicationXMLCharsetUTF8
      ∨ contentType = MIMETextXML ∨ contentType = MIMETextXMLCharsetUTF8 then
    .xml
  else .other

/-! ## The request model

The standard decoders (`c.BodyParser` into `map[string]interface{}`,
`xml.Unmarshal` into the reflectively built struct) are external to the
repository; their outcome is carried on the request. -/

/-- A decoded JSON value as `encoding/json` produces into `interface{}`:
strings, numbers (`float64`, modelled as a rational), or anything else
(bool, null, array, object — the rules' `default` case). -/
inductive JsonVal
  | str (s : GoStr)
  | num (q : Rat)
  | other
deriving DecidableEq

/-- Modelled from the spec: one request as the rules see it — the declared
content type, the raw body, the JSON decode outcome (`none` = undecodable),
the XML decode outcome (`none` = not well-formed; otherwise the tag →
character-data mapping at the first nesting level, "absent elements populate
as empty string"), and the `c.Locals` store the middleware writes. -/
structure Request where
  contentType : GoStr
  body : GoStr
  jsonParsed : Option (List (GoStr × JsonVal))
  xmlParsed : Option (List (GoStr × GoStr))
  locals : List (GoStr × Option GoErr)
deriving DecidableEq

/-- Go map lookup on the decoded JSON object. -/
def lookupJson (m : List (GoStr × JsonVal)) (f : GoStr) : Option JsonVal :=
  (m.find? (fun p => decide (p.1 = f))).map (·.2)

/-- The string the decoded XML struct holds for a field: the matching
element's character data, or the empty string when the element is absent. -/
def xmlFieldValue (m : List (GoStr × GoStr)) (f : GoStr) : GoStr :=
  ((m.find? (fun p => decide (p.1 = f))).map (·.2)).getD []

/-- Outcome of one rule evaluation: pass, a validation error, or a Go
runtime panic (an out-of-range slice in an extractor). -/
inductive RuleResult
  | ok
  | err (e : GoErr)
  | panicked
deriving DecidableEq

/-! ## RestrictUnicode evaluation -/

/-- `RestrictUnicode.restrictJSON`'s field loop. -/
def uniJsonLoop (m : List (GoStr × JsonVal)) : List GoStr → RuleResult
  | [] => .ok
  | f :: fs =>
    match lookupJson m f with
    | some (.str s) =>
      if containsUnicode s then .err ⟨400, errUnicodeNotAllowedInField f⟩
      else uniJsonLoop m fs
    | _ => uniJsonLoop m fs

/-- `RestrictUnicode.restrictJSON`: malformed body first, then the fields. -/
def RestrictUnicode.restrictJSON (r : RestrictUnicode)
    (jsonParsed : Option (List (GoStr × JsonVal))) : RuleResult :=
  match jsonParsed with
  | none => .err ⟨400, ErrInvalidJSONBody⟩
  | some m => uniJsonLoop m r.Fields

/-- `RestrictUnicode.restrictXML`'s field loop over the decoded struct. -/
def uniXmlLoop (m : List (GoStr × GoStr)) : List GoStr → RuleResult
  | [] => .ok
  | f :: fs =>
    if containsUnicode (xmlFieldValue m f) then
      .err ⟨400, errUnicodeNotAllowedInField f⟩
    else uniXmlLoop m fs

/-- `RestrictUnicode.restrictXML`: malformed body first, then the fields. -/
def RestrictUnicode.restrictXML (r : RestrictUnicode)
    (xmlParsed : Option (List (GoStr × GoStr))) : RuleResult :=
  match xmlParsed with
  | none => .err ⟨400, ErrInvalidXMLBody⟩
  | some m => uniXmlLoop m r.Fields

/-- `RestrictUnicode.restrictOther`'s field loop; the whole rule value is in
scope because `extractFieldValue` receives it (its field list bounds the
value). A panicking extraction aborts the evaluation. -/
def uniOtherLoop (r : RestrictUnicode) (body : GoStr) : List GoStr → RuleResult
  | [] => .ok
  | f :: fs =>
    match extractFieldValue body f r with
    | none => .panicked
    | some v =>
      if containsUnicode v then .err ⟨400, errUnicodeNotAllowedInField f⟩
      else uniOtherLoop r body fs

/-- `RestrictUnicode.restrictOther`. -/
def RestrictUnicode.restrictOther (r : RestrictUnicode) (body : GoStr) : RuleResult :=
  uniOtherLoop r body r.Fields

/-! ## RestrictNumberOnly evaluation (the MaxDigits-bearing variant) -/

/-- Truncation of a rational toward zero, the mathematical content of Go's
`int(v)` conversion from `float64`. -/
def ratTrunc (q : Rat) : Int := if 0 ≤ q then q.floor else -((-q).floor)

/-- Modelled from the spec: the Go conversion `int(v)` for a decoded
`float64` — truncation toward zero; out of the `int` range the behaviour is
implementation-specific and the mainstream compiler saturates. -/
def goFloatToInt (q : Rat) : Int :=
  if ratTrunc q < minInt then minInt
  else if maxInt < ratTrunc q then maxInt
  else ratTrunc q

/-- The two bound checks the numeric rule runs after a value passes (or
skips) the digit test: the MaxDigits test on the rendered length first, the
Max test on the integer value second; the first violated bound wins. -/
def numBounds (mxd mx : Option Int) (field : GoStr) (numStrLen : Nat) (num : Int) :
    Option GoErr :=
  match mxd, mx with
  | some d, some m =>
    if (numStrLen : Int) > d then some ⟨400, errFieldExceedsMaximumDigits field d⟩
    else if num > m then some ⟨400, errFieldExceedsMaximumValue field m⟩
    else none
  | some d, none =>
    if (numStrLen : Int) > d then some ⟨400, errFieldExceedsMaximumDigits field d⟩
    else none
  | none, some m =>
    if num > m then some ⟨400, errFieldExceedsMaximumValue field m⟩
    else none
  | none, none => none

/-- `RestrictNumberOnly.restrictJSON`'s field loop: strings must pass the
digit test (violators are collected and reported together after the loop),
numbers convert via `int(v)`/`strconv.Itoa`; any bound violation returns at
once. -/
def numJsonLoop (r : RestrictNumberOnly) (m : List (GoStr × JsonVal)) :
    List GoStr → List GoStr → RuleResult
  | [], invalid =>
    if invalid = [] then .ok
    else .err ⟨400, errFieldMustContainNumbersOnly (joinInvalidFields invalid)⟩
  | f :: fs, invalid =>
    match lookupJson m f with
    | none => numJsonLoop r m fs invalid
    | some (.str s) =>
      if isNumberOnly s then
        match numBounds r.MaxDigits r.Max f s.length (goAtoi s) with
        | some e => .err e
        | none => numJsonLoop r m fs invalid
      else numJsonLoop r m fs (invalid ++ [f])
    | some (.num q) =>
      match numBounds r.MaxDigits r.Max f (goItoa (goFloatToInt q)).length (goFloatToInt q) with
      | some e => .err e
      | none => numJsonLoop r m fs invalid
    | some .other => numJsonLoop r m fs (invalid ++ [f])

/-- `RestrictNumberOnly.restrictJSON`. -/
def RestrictNumberOnly.restrictJSON (r : RestrictNumberOnly)
    (jsonParsed : Option (List (GoStr × JsonVal))) : RuleResult :=
  match jsonParsed with
  | none => .err ⟨400, ErrInvalidJSONBody⟩
  | some m => numJsonLoop r m r.Fields []

/-- `RestrictNumberOnly.restrictXML`'s field loop over the decoded struct. -/
def numXmlLoop (r : RestrictNumberOnly) (m : List (GoStr × GoStr)) :
    List GoStr → List GoStr → RuleResult
  | [], invalid =>
    if invalid = [] then .ok
    else .err ⟨400, errFieldMustContainNumbersOnly (joinInvalidFields invalid)⟩
  | f :: fs, invalid =>
    let v := xmlFieldValue m f
    if isNumberOnly v then
      match numBounds r.MaxDigits r.Max f v.length (goAtoi v) with
      | some e => .err e
      | none => numXmlLoop r m fs invalid
    else numXmlLoop r m fs (invalid ++ [f])

/-- `RestrictNumberOnly.restrictXML`. -/
def RestrictNumberOnly.restrictXML (r : RestrictNumberOnly)
    (xmlParsed : Option (List (GoStr × GoStr))) : RuleResult :=
  match xmlParsed with
  | none => .err ⟨400, ErrInvalidXMLBody⟩
  | some m => numXmlLoop r m r.Fields []

/-- `RestrictNumberOnly.restrictOther`'s field loop over the raw body. -/
def numOtherLoop (r : RestrictNumberOnly) (body : GoStr) :
    List GoStr → List GoStr → RuleResult
  | [], invalid =>
    if invalid = [] then .ok
    else .err ⟨400, errFieldMustContainNumbersOnly (joinInvalidFields invalid)⟩
  | f :: fs, invalid =>
    match extractFieldValueForNumberOnly body f with
    | none => .panicked
    | some v =>
      if isNumberOnly v then
        match numBounds r.MaxDigits r.Max f v.length (goAtoi v) with
        | some e => .err e
        | none => numOtherLoop r body fs invalid
      else numOtherLoop r body fs (invalid ++ [f])

/-- `RestrictNumberOnly.restrictOther`. -/
def RestrictNumberOnly.restrictOther (r : RestrictNumberOnly) (body : GoStr) : RuleResult :=
  numOtherLoop r body r.Fields []

/-! ## RestrictStringLength evaluation -/

/-- `RestrictStringLength.restrictJSON`'s field loop (its `invalidFields`
accumulator is never appended to in the source, so the post-loop report is
dead and the loop either fails on a field or passes). -/
def lenJsonLoop (ml : Option Int) (m : List (GoStr × JsonVal)) : List GoStr → RuleResult
  | [] => .ok
  | f :: fs =>
    match lookupJson m f with
    | some (.str s) =>
      match ml with
      | some l =>
        if (s.length : Int) > l then .err ⟨400, errFieldExceedsMaximumLength f l⟩
        else lenJsonLoop ml m fs
      | none => lenJsonLoop ml m fs
    | _ => lenJsonLoop ml m fs

/-- `RestrictStringLength.restrictJSON`. -/
def RestrictStringLength.restrictJSON (r : RestrictStringLength)
    (jsonParsed : Option (List (GoStr × JsonVal))) : RuleResult :=
  match jsonParsed with
  | none => .err ⟨400, ErrInvalidJSONBody⟩
  | some m => lenJsonLoop r.MaxLength m r.Fields

/-- `RestrictStringLength.restrictXML`'s field loop. -/
def lenXmlLoop (ml : Option Int) (m : List (GoStr × GoStr)) : List GoStr → RuleResult
  | [] => .ok
  | f :: fs =>
    match ml with
    | some l =>
      if ((xmlFieldValue m f).length : Int) > l then
        .err ⟨400, errFieldExceedsMaximumLength f l⟩
      else lenXmlLoop ml m fs
    | none => lenXmlLoop ml m fs

/-- `RestrictStringLength.restrictXML`. -/
def RestrictStringLength.restrictXML (r : RestrictStringLength)
    (xmlParsed : Option (List (GoStr × GoStr))) : RuleResult :=
  match xmlParsed with
  | none => .err ⟨400, ErrInvalidXMLBody⟩
  | some m => lenXmlLoop r.MaxLength m r.Fields

/-- `RestrictStringLength.restrictOther`'s field loop: extraction reuses the
generic extractor with a `RestrictUnicode` value built from this rule's own
field list. -/
def lenOtherLoop (fields : List GoStr) (ml : Option Int) (body : GoStr) :
    List GoStr → RuleResult
  | [] => .ok
  | f :: fs =>
    match extractFieldValue body f ⟨fields⟩ with
    | none => .panicked
    | some v =>
      match ml with
      | some l =>
        if (v.length : Int) > l then .err ⟨400, errFieldExceedsMaximumLength f l⟩
        else lenOtherLoop fields ml body fs
      | none => lenOtherLoop fields ml body fs

/-- `RestrictStringLength.restrictOther`. -/
def RestrictStringLength.restrictOther (r : RestrictStringLength) (body : GoStr) : RuleResult :=
  lenOtherLoop r.Fields r.MaxLength body r.Fields

/-! ## Rules, the chain executor and the middleware -/

/-- The repository's `Restrictor` implementations. -/
inductive Rule
  | unicode (r : RestrictUnicode)
  | numberOnly (r : RestrictNumberOnly)
  | stringLength (r : RestrictStringLength)
deriving DecidableEq

/-- `Restrict`: classify the declared content type, then run the matching
branch. Only the content type, the raw body and the decode outcomes are
read; never the locals store. -/
def Rule.restrict : Rule → Request → RuleResult
  | .unicode r, req =>
    match restrictByContentType req.contentType with
    | .json => r.restrictJSON req.jsonParsed
    | .xml => r.restrictXML req.xmlParsed
    | .other => r.restrictOther req.body
  | .numberOnly r, req =>
    match restrictByContentType req.contentType with
    | .json => r.restrictJSON req.jsonParsed
    | .xml => r.restrictXML req.xmlParsed
    | .other => r.restrictOther req.body
  | .stringLength r, req =>
    match restrictByContentType req.contentType with
    | .json => r.restrictJSON req.jsonParsed
    | .xml => r.restrictXML req.xmlParsed
    | .other => r.restrictOther req.body

/-- The middleware configuration (`Config`): the ordered rules, the
optional bypass predicate, and the optional locals key for the verdict
(the error handler itself is modelled in `DefaultErrorHandler` below; a
custom handler replaces only the formatting, not which error it is given). -/
structure Config where
  Rules : List Rule
  Next : Option (Request → Bool)
  ContextKey : GoStr

/-- The rule loop of the handler `New` returns: evaluate in order, stop at
the first non-pass result. -/
def chainEval : List Rule → Request → RuleResult
  | [], _ => .ok
  | r :: rs, req =>
    match r.restrict req with
    | .ok => chainEval rs req
    | .err e => .err e
    | .panicked => .panicked

/-- The first failure of the chain in rule order, stated declaratively. -/
def firstFailure (rules : List Rule) (req : Request) : Option GoErr :=
  rules.findSome? (fun r =>
    match r.restrict req with
    | .err e => some e
    | _ => none)

/-- The `c.Locals(cfg.ContextKey, v)` write `New` performs when a context
key is configured. -/
def storeVerdict (cfg : Config) (req : Request) (v : Option GoErr) : Request :=
  if cfg.ContextKey ≠ [] then { req with locals := (cfg.ContextKey, v) :: req.locals }
  else req

/-- What the middleware hands back to the pipeline: the chain was skipped
(`Next` returned true, `c.Next()` with no write), a failure was given to the
error handler (with the verdict stored), the request proceeds to the next
stage with no body emitted by this layer (verdict stored as nil), or a rule
panicked. -/
inductive Outcome
  | skipped (req : Request)
  | report (e : GoErr) (req : Request)
  | proceed (req : Request)
  | panicked
deriving DecidableEq

/-- The handler `New` returns, for one request. -/
def middleware (cfg : Config) (req : Request) : Outcome :=
  if (cfg.Next.map (fun p => p req)).getD false then .skipped req
  else
    match chainEval cfg.Rules req with
    | .err e => .report e (storeVerdict cfg req (some e))
    | .ok => .proceed (storeVerdict cfg req none)
    | .panicked => .panicked

/-! ## The default error handler

`DefaultErrorHandler` dispatches the same content-type classification into
three formatters. The JSON/XML serialisers it calls (`c.JSON`, `c.XML`) are
the standard encoders, external to the repository; their output is modelled
from the spec: the JSON branch renders the object with key `error`, the XML
branch renders `xmlError`/`error` elements with the message entity-escaped
(`xml.EscapeText`'s table), the default branch sends the raw message. -/

/-- A response: the status set on the context and the body written. -/
structure Response where
  status : Int
  body : GoStr
deriving DecidableEq

/-- Modelled from the spec: `xml.EscapeText`'s byte-level entity escaping
(`&`, `<`, `>`, apostrophe, quote, TAB, LF, CR). -/
def xmlEscapeByte (b : Nat) : GoStr :=
  if b = 34 then strBytes "&#34;"
  else if b = 38 then strBytes "&amp;"
  else if b = 39 then strBytes "&#39;"
  else if b = 60 then strBytes "&lt;"
  else if b = 62 then strBytes "&gt;"
  else if b = 9 then strBytes "&#x9;"
  else if b = 10 then strBytes "&#xA;"
  else if b = 13 then strBytes "&#xD;"
  else [b]

/-- Entity-escape a message for the XML error body. -/
def xmlEscape (s : GoStr) : GoStr := s.flatMap xmlEscapeByte

/-- `jsonErrorHandler`: status from the error, body the JSON object with
key `error` and the message. -/
def jsonErrorHandler (e : GoErr) : Response :=
  ⟨e.status, strBytes "\x7b\"error\":\"" ++ e.message ++ strBytes "\"\x7d"⟩

/-- `xmlErrorHandler`: status from the error, body the `xmlError` element
wrapping an `error` element with the escaped message. -/
def xmlErrorHandler (e : GoErr) : Response :=
  ⟨e.status, strBytes "<xmlError><error>" ++ xmlEscape e.message
    ++ strBytes "</error></xmlError>"⟩

/-- `defaultErrorHandler`: status from the error, raw message as the body. -/
def textErrorHandler (e : GoErr) : Response :=
  ⟨e.status, e.message⟩

/-- `DefaultErrorHandler` on a validation error: pick the formatter by the
request's classified content type. -/
def DefaultErrorHandler (req : Request) (e : GoErr) : Response :=
  match restrictByContentType req.contentType with
  | .json => jsonErrorHandler e
  | .xml => xmlErrorHandler e
  | .other => textErrorHandler e

/-! ## Spec-side definitions used to settle individual claims -/

/-- The value-end position as the spec's sentence describes it ("the start
of the next occurrence of any other configured field name found after the
value start, whichever comes first"): the minimum over all other configured
fields of their first occurrence position, not the source's first-match-in-
list-order walk. -/
def findEndSpecMin (bodyLower : GoStr) (valueStart : Nat) (field : GoStr) :
    List GoStr → Nat → Nat
  | [], acc => acc
  | f :: fs, acc =>
    if f ≠ field then
      match goIndex (bodyLower.drop valueStart) (goToLower f) with
      | some e => findEndSpecMin bodyLower valueStart field fs (min acc (valueStart + e))
      | none => findEndSpecMin bodyLower valueStart field fs acc
    else findEndSpecMin bodyLower valueStart field fs acc

/-- The extractor as the spec's sentence describes it: identical to
`extractFieldValue` except that the value ends at the earliest occurrence
of any other configured field name after the value start. -/
def extractFieldValueSpec (body field : GoStr) (r : RestrictUnicode) : Option GoStr :=
  let fieldLower := goToLower field
  let bodyLower := goToLower body
  match goIndex bodyLower fieldLower with
  | none => some []
  | some startPos =>
    let valueStartPos := skipSeps body (startPos + fieldLower.length)
    if bodyLower.length < valueStartPos ∧ r.Fields.any (fun f => decide (f ≠ field)) then
      none
    else
      let valueEndPos := findEndSpecMin bodyLower valueStartPos field r.Fields body.length
      if valueStartPos ≤ valueEndPos ∧ valueEndPos ≤ body.length then
        some (trimSpace (goSlice body valueStartPos valueEndPos))
      else none

/-- The extractor with its value-end loop restated declaratively: the end
position belongs to the first field in the configured list's own order,
distinct from the extracted field, whose lowercased name occurs at or after
the value start; body end when there is none. -/
def extractFieldValueListOrder (body field : GoStr) (r : RestrictUnicode) : Option GoStr :=
  let fieldLower := goToLower field
  let bodyLower := goToLower body
  match goIndex bodyLower fieldLower with
  | none => some []
  | some startPos =>
    let valueStartPos := skipSeps body (startPos + fieldLower.length)
    if bodyLower.length < valueStartPos ∧ r.Fields.any (fun f => decide (f ≠ field)) then
      none
    else
      let valueEndPos :=
        match r.Fields.find? (fun f =>
            decide (f ≠ field) && (goIndex (bodyLower.drop valueStartPos) (goToLower f)).isSome) with
        | some f => valueStartPos + (goIndex (bodyLower.drop valueStartPos) (goToLower f)).getD 0
        | none => body.length
      if valueStartPos ≤ valueEndPos ∧ valueEndPos ≤ body.length then
        some (trimSpace (goSlice body valueStartPos valueEndPos))
      else none

/-- A configured field name is absent from the request body, read at the
branch the request's content type selects: JSON — the decode succeeded and
the key is missing from the map; XML — the decode succeeded and no element
carries the tag; Other — the lowercased name is not a substring of the
lowercased body (both extractors then return the empty string). -/
def fieldAbsent (req : Request) (f : GoStr) : Prop :=
  match restrictByContentType req.contentType with
  | .json => ∃ m, req.jsonParsed = some m ∧ lookupJson m f = none
  | .xml => ∃ m, req.xmlParsed = some m ∧ m.find? (fun p => decide (p.1 = f)) = none
  | .other => goIndex (goToLower req.body) (goToLower f) = none

/-- A field whose extracted value the numeric rule's plain-text branch
accepts: extraction succeeds, the value is all ASCII digits, and it is
within whichever bounds are configured. -/
def cleanNumField (mx mxd : Option Int) (body f : GoStr) : Prop :=
  ∃ v, extractFieldValueForNumberOnly body f = some v ∧ v.all isDigitByte = true ∧
    (∀ d, mxd = some d → (v.length : Int) ≤ d) ∧
    (∀ m, mx = some m → goAtoi v ≤ m)

/-! ## Helper lemmas -/

/-- A successful `strings.Index` leaves room for the needle: the match fits
inside the haystack. -/
theorem goIndexAux_some_le (sub : GoStr) :
    ∀ (s : GoStr) (i : Nat), goIndexAux sub s = some i → i + sub.length ≤ s.length := by
  intro s
  induction s with
  | nil =>
    intro i h
    simp only [goIndexAux] at h
    split at h
    · next hp =>
      cases h
      simpa using (List.isPrefixOf_iff_prefix.mp hp).length_le
    · simp at h
  | cons b t ih =>
    intro i h
    simp only [goIndexAux] at h
    split at h
    · next hp =>
      cases h
      simpa using (List.isPrefixOf_iff_prefix.mp hp).length_le
    · simp only [Option.map_eq_some'] at h
      obtain ⟨j, hj, rfl⟩ := h
      have := ih j hj
      simp only [List.length_cons]
      omega

/-- `goIndex` form of the bound above. -/
theorem goIndex_some_le {s sub : GoStr} {i : Nat} (h : goIndex s sub = some i) :
    i + sub.length ≤ s.length :=
  goIndexAux_some_le sub s i h

/-- The separator skip never moves backwards. -/
theorem skipSeps_ge (body : GoStr) (pos : Nat) : pos ≤ skipSeps body pos :=
  Nat.le_add_right _ _

/-- The separator skip stays inside the body. -/
theorem skipSeps_le (body : GoStr) (pos : Nat) (h : pos ≤ body.length) :
    skipSeps body pos ≤ body.length := by
  unfold skipSeps
  have h1 : ((body.drop pos).takeWhile isSepByte).length ≤ (body.drop pos).length :=
    (List.takeWhile_sublist _).length_le
  rw [List.length_drop] at h1
  omega

/-- `List.findIdx?` with its accumulator: a hit lies within the scanned
list, offset by the start index. -/
theorem findIdx?_acc_bound {α : Type} (p : α → Bool) (l : List α) :
    ∀ s i, List.findIdx? p l s = some i → s ≤ i ∧ i < s + l.length := by
  induction l with
  | nil => intro s i h; simp [List.findIdx?] at h
  | cons a t ih =>
    intro s i h
    rw [List.findIdx?_cons] at h
    by_cases hp : p a
    · simp [hp] at h
      subst h
      simp
    · simp only [hp, if_false] at h
      have := ih (s + 1) i h
      simp only [List.length_cons]
      omega

/-- The number-only value end never exceeds the body. -/
theorem findAmpEnd_le (body : GoStr) (start : Nat) : findAmpEnd body start ≤ body.length := by
  unfold findAmpEnd
  split
  · next i h =>
    have := findIdx?_acc_bound _ _ 0 i h
    rw [List.length_drop] at this
    omega
  · exact le_rfl

/-- The number-only value end never precedes its start (inside the body). -/
theorem findAmpEnd_ge (body : GoStr) (start : Nat) (h : start ≤ body.length) :
    start ≤ findAmpEnd body start := by
  unfold findAmpEnd
  split
  · exact Nat.le_add_right _ _
  · exact h

/-- The generic value-end walk stays between the value start and the
default (given both bound the search area). -/
theorem findEnd_bounds (bodyLower : GoStr) (vs : Nat) (field : GoStr) (dflt : Nat)
    (hvs : vs ≤ dflt) (hlen : bodyLower.length ≤ dflt) :
    ∀ fields : List GoStr,
      vs ≤ findEnd bodyLower vs field dflt fields ∧
        findEnd bodyLower vs field dflt fields ≤ dflt := by
  intro fields
  induction fields with
  | nil => exact ⟨hvs, le_rfl⟩
  | cons f fs ih =>
    simp only [findEnd]
    split
    · split
      · next e he =>
        have := goIndex_some_le he
        rw [List.length_drop] at this
        constructor
        · exact Nat.le_add_right _ _
        · omega
      · exact ih
    · exact ih

/-- The decoder is the identity on ASCII byte lists (given enough fuel). -/
theorem utf8DecodeAux_ascii :
    ∀ (fuel : Nat) (s : GoStr), s.length ≤ fuel → (∀ b ∈ s, b < 128) →
      utf8DecodeAux fuel s = s := by
  intro fuel
  induction fuel with
  | zero =>
    intro s h _
    have : s = [] := List.eq_nil_of_length_eq_zero (Nat.le_zero.mp h)
    subst this
    rfl
  | succ n ih =>
    intro s hlen hascii
    match s with
    | [] => rfl
    | b :: rest =>
      have hb : b < 128 := hascii b (by simp)
      simp only [utf8DecodeAux, if_pos hb]
      rw [ih rest (by simp only [List.length_cons] at hlen; omega)
        (fun x hx => hascii x (by simp [hx]))]

/-- `utf8Decode` is the identity on ASCII byte lists. -/
theorem utf8Decode_ascii (s : GoStr) (h : ∀ b ∈ s, b < 128) : utf8Decode s = s :=
  utf8DecodeAux_ascii s.length s le_rfl h

/-- An all-digit byte list passes `isNumberOnly`. -/
theorem isNumberOnly_of_digits {s : GoStr} (h : s.all isDigitByte = true) :
    isNumberOnly s = true := by
  have hascii : ∀ b ∈ s, b < 128 := by
    intro b hb
    have := List.all_eq_true.mp h b hb
    simp only [isDigitByte, decide_eq_true_eq] at this
    omega
  unfold isNumberOnly
  rw [utf8Decode_ascii s hascii, List.all_eq_true]
  intro b hb
  have := List.all_eq_true.mp h b hb
  simp only [isDigitByte, decide_eq_true_eq] at this ⊢
  exact this

/-- The chain loop agrees with the declarative first failure whenever no
rule panics. -/
theorem chainEval_eq_firstFailure (req : Request) :
    ∀ rules : List Rule, (∀ r ∈ rules, Rule.restrict r req ≠ .panicked) →
      chainEval rules req =
        match firstFailure rules req with
        | some e => RuleResult.err e
        | none => RuleResult.ok := by
  intro rules
  induction rules with
  | nil => intro _; rfl
  | cons r rs ih =>
    intro hs
    simp only [chainEval, firstFailure, List.findSome?_cons]
    cases hr : Rule.restrict r req with
    | ok => exact ih (fun x hx => hs x (List.mem_cons_of_mem _ hx))
    | err e => rfl
    | panicked => exact absurd hr (hs r (List.mem_cons_self _ _))

/-! ## The claims -/

/-- C1: for every configured rule list and every request the Next predicate
does not skip (and on which no rule evaluation panics), the middleware
evaluates the rules in list order, stops at the first rule whose evaluation
fails and reports exactly that failure to the error handler (storing it
when a context key is set); when every rule passes, the request proceeds to
the next pipeline stage with no response body emitted by this layer. -/
theorem claim_C1_rule_chain (cfg : Config) (req : Request)
    (hnext : (cfg.Next.map (fun p => p req)).getD false = false)
    (hsafe : ∀ r ∈ cfg.Rules, Rule.restrict r req ≠ .panicked) :
    middleware cfg req =
      match firstFailure cfg.Rules req with
      | some e => Outcome.report e (storeVerdict cfg req (some e))
      | none => Outcome.proceed (storeVerdict cfg req none) := by
  unfold middleware
  rw [hnext]
  simp only [Bool.false_eq_true, if_false]
  rw [chainEval_eq_firstFailure req cfg.Rules hsafe]
  cases firstFailure cfg.Rules req <;> rfl

/-- Witness configuration for C1: two rules, the first passes and the
second fails on its Max bound (the spec's scenario of a pass followed by a
failure). -/
def cfgW1 : Config :=
  ⟨[.unicode ⟨[strBytes "name"]⟩, .numberOnly ⟨[strBytes "age"], some 100, none⟩],
    none, strBytes "verdict"⟩

/-- Witness request for C1: a plain-text body whose `age` field is 200. -/
def reqW1 : Request := ⟨strBytes "text/plain", strBytes "name=gopher&age=200", none, none, []⟩

/-- Witness error for C1: the second rule's Max failure. -/
def errW1 : GoErr := ⟨400, errFieldExceedsMaximumValue (strBytes "age") 100⟩

/-- C1 witness: at the concrete configuration the middleware reports
exactly the second rule's failure. -/
theorem claim_C1_rule_chain_witness :
    middleware cfgW1 reqW1 = Outcome.report errW1 (storeVerdict cfgW1 reqW1 (some errW1)) := by
  have h := claim_C1_rule_chain cfgW1 reqW1 (by decide) (by decide)
  rw [h]
  have hf : firstFailure cfgW1.Rules reqW1 = some errW1 := by decide
  rw [hf]

/-- C2: whatever the configured rule, when the request's content type
selects the JSON branch and the body is not decodable JSON, the rule fails
with status 400 and the fixed message, regardless of fields and bounds; the
XML branch behaves likewise for a body that is not well-formed XML. -/
theorem claim_C2_malformed_body (r : Rule) (req : Request) :
    (restrictByContentType req.contentType = .json → req.jsonParsed = none →
      Rule.restrict r req = .err ⟨400, ErrInvalidJSONBody⟩) ∧
    (restrictByContentType req.contentType = .xml → req.xmlParsed = none →
      Rule.restrict r req = .err ⟨400, ErrInvalidXMLBody⟩) := by
  constructor
  · intro hb hp
    cases r <;>
      simp [Rule.restrict, hb, hp, RestrictUnicode.restrictJSON,
        RestrictNumberOnly.restrictJSON, RestrictStringLength.restrictJSON]
  · intro hb hp
    cases r <;>
      simp [Rule.restrict, hb, hp, RestrictUnicode.restrictXML,
        RestrictNumberOnly.restrictXML, RestrictStringLength.restrictXML]

/-- C2 witness: a numeric rule with bounds, a JSON content type and an
undecodable body produce the fixed invalid-JSON failure. -/
theorem claim_C2_malformed_body_witness :
    Rule.restrict (.numberOnly ⟨[strBytes "age"], some 100, some 3⟩)
        ⟨MIMEApplicationJSON, strBytes "not json", none, none, []⟩
      = .err ⟨400, ErrInvalidJSONBody⟩ :=
  (claim_C2_malformed_body _ _).1 (by decide) rfl

/-- C3: the default error handler takes the status from the failure object
on every branch, and the body from the branch the content type classifies
to — the JSON object with key `error`, the `xmlError`/`error` element pair
with the message entity-escaped, or the raw message. -/
theorem claim_C3_default_error_handler (req : Request) (e : GoErr) :
    (DefaultErrorHandler req e).status = e.status ∧
    (restrictByContentType req.contentType = .json →
      (DefaultErrorHandler req e).body =
        strBytes "\x7b\"error\":\"" ++ e.message ++ strBytes "\"\x7d") ∧
    (restrictByContentType req.contentType = .xml →
      (DefaultErrorHandler req e).body =
        strBytes "<xmlError><error>" ++ xmlEscape e.message ++ strBytes "</error></xmlError>") ∧
    (restrictByContentType req.contentType = .other →
      (DefaultErrorHandler req e).body = e.message) := by
  unfold DefaultErrorHandler
  cases h : restrictByContentType req.contentType <;>
    simp [jsonErrorHandler, xmlErrorHandler, textErrorHandler]

/-- C3 witness: the XML branch entity-escapes the apostrophes of a concrete
message (the spec's `&#39;` example) and keeps the failure's status. -/
theorem claim_C3_default_error_handler_witness :
    (DefaultErrorHandler ⟨MIMEApplicationXML, [], none, none, []⟩
        ⟨400, errFieldExceedsMaximumValue (strBytes "age") 100⟩).body
      = strBytes "<xmlError><error>The &#39;age&#39; field must not exceed 100</error></xmlError>" := by
  have h := (claim_C3_default_error_handler ⟨MIMEApplicationXML, [], none, none, []⟩
    ⟨400, errFieldExceedsMaximumValue (strBytes "age") 100⟩).2.2.1 (by decide)
  rw [h]
  decide

/-- C7: the classifier is a total function into exactly three branches —
JSON for the JSON media type with or without its charset suffix, XML for
`application/xml` and `text/xml` with or without their charset suffixes,
and Other for every other header value (the empty header included), with no
error path; determinism is its being a function of the header string. -/
theorem claim_C7_content_type_classifier (ct : GoStr) :
    (restrictByContentType ct = .json ↔
      ct = MIMEApplicationJSON ∨ ct = MIMEApplicationJSONCharsetUTF8) ∧
    (restrictByContentType ct = .xml ↔
      ct = MIMEApplicationXML ∨ ct = MIMEApplicationXMLCharsetUTF8
        ∨ ct = MIMETextXML ∨ ct = MIMETextXMLCharsetUTF8) ∧
    (restrictByContentType ct = .other ↔
      ¬(ct = MIMEApplicationJSON ∨ ct = MIMEApplicationJSONCharsetUTF8
        ∨ ct = MIMEApplicationXML ∨ ct = MIMEApplicationXMLCharsetUTF8
        ∨ ct = MIMETextXML ∨ ct = MIMETextXMLCharsetUTF8)) := by
  unfold restrictByContentType
  split
  · next h => rcases h with h | h <;> subst h <;> decide
  · next h1 =>
    split
    · next h2 => rcases h2 with h | h | h | h <;> subst h <;> decide
    · next h2 =>
      refine ⟨iff_of_false (by simp) h1, iff_of_false (by simp) h2, iff_of_true rfl ?_⟩
      intro hd
      rcases hd with h | h | h | h | h | h
      · exact h1 (Or.inl h)
      · exact h1 (Or.inr h)
      · exact h2 (Or.inl h)
      · exact h2 (Or.inr (Or.inl h))
      · exact h2 (Or.inr (Or.inr (Or.inl h)))
      · exact h2 (Or.inr (Or.inr (Or.inr h)))

/-- C8: rule evaluation is a pure function of the unchanged request data —
the declared content type, the raw body and the decode outcomes — and of
nothing else (in particular not the locals store a first evaluation's
middleware may have written), so evaluating the same rule twice against the
same unchanged request yields the identical verdict, same status and
message included. -/
theorem claim_C8_idempotent_verdict (r : Rule) (req₁ req₂ : Request)
    (hct : req₁.contentType = req₂.contentType) (hb : req₁.body = req₂.body)
    (hj : req₁.jsonParsed = req₂.jsonParsed) (hx : req₁.xmlParsed = req₂.xmlParsed) :
    Rule.restrict r req₁ = Rule.restrict r req₂ := by
  obtain ⟨ct₁, b₁, j₁, x₁, l₁⟩ := req₁
  obtain ⟨ct₂, b₂, j₂, x₂, l₂⟩ := req₂
  simp only at hct hb hj hx
  subst hct
  subst hb
  subst hj
  subst hx
  cases r <;> rfl

/-- The value-end walk equals the declarative first-in-list-order match:
the first configured field, distinct from the extracted one, whose
lowercased name occurs at or after the value start wins; otherwise the
default stands. -/
theorem findEnd_eq_find? (bodyLower : GoStr) (vs : Nat) (field : GoStr) (dflt : Nat) :
    ∀ fields : List GoStr,
      findEnd bodyLower vs field dflt fields =
        match fields.find? (fun f =>
            decide (f ≠ field) && (goIndex (bodyLower.drop vs) (goToLower f)).isSome) with
        | some f => vs + (goIndex (bodyLower.drop vs) (goToLower f)).getD 0
        | none => dflt := by
  intro fields
  induction fields with
  | nil => rfl
  | cons f fs ih =>
    simp only [findEnd, List.find?_cons]
    by_cases hf : f = field
    · subst hf
      simpa using ih
    · by_cases hg : (goIndex (bodyLower.drop vs) (goToLower f)).isSome
      · obtain ⟨e, he⟩ := Option.isSome_iff_exists.mp hg
        simp [hf, he]
      · have hn : goIndex (bodyLower.drop vs) (goToLower f) = none :=
          Option.not_isSome_iff_eq_none.mp hg
        simpa [hf, hn] using ih

/-- C4 counterexample: with fields configured in the order `a, b, c` and
body `a=xCyB`, the code ends the value of `a` at the occurrence of `b`
(the first *other* field in list order, found at offset 5) although `c`
occurs earlier in the body (offset 3); the spec's earliest-occurrence
reading would extract `x`, the code extracts `xCy`. -/
theorem claim_C4_counterexample :
    extractFieldValue (strBytes "a=xCyB") (strBytes "a")
        ⟨[strBytes "a", strBytes "b", strBytes "c"]⟩ = some (strBytes "xCy") ∧
    extractFieldValueSpec (strBytes "a=xCyB") (strBytes "a")
        ⟨[strBytes "a", strBytes "b", strBytes "c"]⟩ = some (strBytes "x") ∧
    (some (strBytes "xCy") : Option GoStr) ≠ some (strBytes "x") := by
  decide

/-- C4 (amended): the generic extractor ends the extracted value at the
occurrence of the first *other* configured field name in the configured
list's own iteration order whose (case-insensitive) name occurs at or after
the value start — not at the earliest such occurrence in the body — or at
the body's end when no other configured field name occurs there. -/
theorem claim_C4_extractor_end_position (body field : GoStr) (r : RestrictUnicode) :
    extractFieldValue body field r = extractFieldValueListOrder body field r := by
  unfold extractFieldValue extractFieldValueListOrder
  simp only [findEnd_eq_find?]

/-- The bound checks pass when the value is within every configured bound. -/
theorem numBounds_none {mxd mx : Option Int} (f : GoStr) {len : Nat} {num : Int}
    (hd : ∀ d, mxd = some d → (len : Int) ≤ d) (hm : ∀ m, mx = some m → num ≤ m) :
    numBounds mxd mx f len num = none := by
  cases mxd with
  | none =>
    cases mx with
    | none => rfl
    | some m =>
      have := hm m rfl
      simp only [numBounds]
      rw [if_neg (by omega)]
  | some d =>
    have hd' := hd d rfl
    cases mx with
    | none =>
      simp only [numBounds]
      rw [if_neg (by omega)]
    | some m =>
      have := hm m rfl
      simp only [numBounds]
      rw [if_neg (by omega), if_neg (by omega)]

/-- A digit-count violation fails first, with the digits message. -/
theorem numBounds_digits {mxd mx : Option Int} {f : GoStr} {len : Nat} {num : Int}
    (d : Int) (hmd : mxd = some d) (h : (len : Int) > d) :
    numBounds mxd mx f len num = some ⟨400, errFieldExceedsMaximumDigits f d⟩ := by
  subst hmd
  cases mx with
  | none =>
    simp only [numBounds]
    rw [if_pos h]
  | some m =>
    simp only [numBounds]
    rw [if_pos h]

/-- A value violation within the digit bound fails with the value message. -/
theorem numBounds_value {mxd mx : Option Int} {f : GoStr} {len : Nat} {num : Int}
    (m : Int) (hmx : mx = some m) (hlen : ∀ d, mxd = some d → (len : Int) ≤ d)
    (h : num > m) :
    numBounds mxd mx f len num = some ⟨400, errFieldExceedsMaximumValue f m⟩ := by
  subst hmx
  cases mxd with
  | none =>
    simp only [numBounds]
    rw [if_pos h]
  | some d =>
    have := hlen d rfl
    simp only [numBounds]
    rw [if_neg (by omega), if_pos h]

/-- Every outcome of the bound checks: pass, the digits failure naming the
configured digit bound, or the value failure naming the configured value
bound. -/
theorem numBounds_cases (mxd mx : Option Int) (f : GoStr) (len : Nat) (num : Int) :
    numBounds mxd mx f len num = none ∨
    (∃ d, mxd = some d ∧
      numBounds mxd mx f len num = some ⟨400, errFieldExceedsMaximumDigits f d⟩) ∨
    (∃ m, mx = some m ∧
      numBounds mxd mx f len num = some ⟨400, errFieldExceedsMaximumValue f m⟩) := by
  by_cases hd : ∃ d, mxd = some d ∧ (len : Int) > d
  · obtain ⟨d, hmd, h⟩ := hd
    exact Or.inr (Or.inl ⟨d, hmd, numBounds_digits d hmd h⟩)
  · push_neg at hd
    by_cases hm : ∃ m, mx = some m ∧ num > m
    · obtain ⟨m, hmx, h⟩ := hm
      refine Or.inr (Or.inr ⟨m, hmx, numBounds_value m hmx (fun d h' => ?_) h⟩)
      have := hd d h'
      omega
    · push_neg at hm
      refine Or.inl (numBounds_none f (fun d h' => ?_) (fun m h' => ?_))
      · have := hd d h'
        omega
      · have := hm m h'
        omega

/-- The numeric rule's plain-text loop walks past a prefix of clean fields
unchanged: each extracts, passes the digit test and both bounds. -/
theorem numOtherLoop_clean_front (r : RestrictNumberOnly) (body : GoStr)
    (rest inv : List GoStr) :
    ∀ pre : List GoStr, (∀ g ∈ pre, cleanNumField r.Max r.MaxDigits body g) →
      numOtherLoop r body (pre ++ rest) inv = numOtherLoop r body rest inv := by
  intro pre
  induction pre with
  | nil => intro _; rfl
  | cons g gs ih =>
    intro hc
    obtain ⟨v, hv, hdig, hld, hvd⟩ := hc g (List.mem_cons_self _ _)
    simp only [List.cons_append, numOtherLoop, hv]
    rw [if_pos (isNumberOnly_of_digits hdig), numBounds_none g hld hvd]
    exact ih (fun x hx => hc x (List.mem_cons_of_mem _ hx))

/-- `strconv.Atoi`'s result exceeds a bound below the platform maximum
whenever the digit string's numeric value does (clamping keeps the result
above any such bound). -/
theorem goAtoi_digits_gt {v : GoStr} {m : Int} (hdig : v.all isDigitByte = true)
    (hm : m < maxInt) (hv : (digVal v : Int) > m) : goAtoi v > m := by
  unfold goAtoi
  split
  · next rest =>
    have h45 := List.all_eq_true.mp hdig 45 (List.mem_cons_self _ _)
    simp [isDigitByte] at h45
  · by_cases hvnil : v = []
    · subst hvnil
      rw [if_neg (by simp)]
      simpa [digVal] using hv
    · rw [if_pos ⟨hvnil, hdig⟩]
      split
      · omega
      · omega

/-- C5 counterexample: a configured field absent from the body fails a rule
whose bound is negative — with `Max = -1` the numeric rule's plain-text
branch extracts the empty string for the absent field `age` (its name is
nowhere in the body), treats it as the number 0 and reports 0 exceeding
-1. -/
theorem claim_C5_counterexample :
    goIndex (goToLower (strBytes "x=1")) (goToLower (strBytes "age")) = none ∧
    Rule.restrict (.numberOnly ⟨[strBytes "age"], some (-1), none⟩)
        ⟨strBytes "text/plain", strBytes "x=1", none, none, []⟩
      = .err ⟨400, errFieldExceedsMaximumValue (strBytes "age") (-1)⟩ ∧
    RuleResult.err ⟨400, errFieldExceedsMaximumValue (strBytes "age") (-1)⟩
      ≠ .ok := by
  decide

/-- C5 (amended): provided every configured bound is nonnegative, a
configured field name absent from the request body never causes a failure —
each of the three rule types passes for that field on whichever content-type
branch the request selects. -/
theorem claim_C5_absent_field_passes (f : GoStr) (req : Request) (mx mxd ml : Option Int)
    (hmx : ∀ b, mx = some b → 0 ≤ b) (hmxd : ∀ b, mxd = some b → 0 ≤ b)
    (hml : ∀ b, ml = some b → 0 ≤ b) (habs : fieldAbsent req f) :
    Rule.restrict (.unicode ⟨[f]⟩) req = .ok ∧
    Rule.restrict (.numberOnly ⟨[f], mx, mxd⟩) req = .ok ∧
    Rule.restrict (.stringLength ⟨[f], ml⟩) req = .ok := by
  unfold fieldAbsent at habs
  cases hbr : restrictByContentType req.contentType
  case json =>
    rw [hbr] at habs
    obtain ⟨m, hm, hl⟩ := habs
    refine ⟨?_, ?_, ?_⟩ <;>
      simp [Rule.restrict, hbr, hm, RestrictUnicode.restrictJSON,
        RestrictNumberOnly.restrictJSON, RestrictStringLength.restrictJSON,
        uniJsonLoop, numJsonLoop, lenJsonLoop, hl]
  case xml =>
    rw [hbr] at habs
    obtain ⟨m, hm, hl⟩ := habs
    have hv : xmlFieldValue m f = [] := by simp [xmlFieldValue, hl]
    have hA : goAtoi [] = 0 := by decide
    have hnb : numBounds mxd mx f (0 : Nat) (goAtoi []) = none := by
      rw [hA]
      refine numBounds_none f (fun d h' => ?_) (fun b h' => ?_)
      · have := hmxd d h'
        omega
      · have := hmx b h'
        omega
    refine ⟨?_, ?_, ?_⟩
    · simp [Rule.restrict, hbr, hm, RestrictUnicode.restrictXML, uniXmlLoop, hv,
        containsUnicode]
    · simp only [Rule.restrict, hbr]
      unfold RestrictNumberOnly.restrictXML
      rw [hm]
      simp only [numXmlLoop, hv, List.length_nil]
      rw [if_pos (by decide), hnb]
      rfl
    · simp only [Rule.restrict, hbr]
      unfold RestrictStringLength.restrictXML
      rw [hm]
      cases hmll : ml with
      | none => simp [lenXmlLoop, hmll]
      | some l =>
        have := hml l hmll
        simp only [lenXmlLoop, hv]
        rw [if_neg (by simp only [List.length_nil, Nat.cast_zero]; omega)]
  case other =>
    rw [hbr] at habs
    have he1 : extractFieldValue req.body f ⟨[f]⟩ = some [] := by
      simp only [extractFieldValue, habs]
    have he2 : extractFieldValueForNumberOnly req.body f = some [] := by
      simp only [extractFieldValueForNumberOnly, habs]
    have hA : goAtoi [] = 0 := by decide
    have hnb : numBounds mxd mx f (0 : Nat) (goAtoi []) = none := by
      rw [hA]
      refine numBounds_none f (fun d h' => ?_) (fun b h' => ?_)
      · have := hmxd d h'
        omega
      · have := hmx b h'
        omega
    refine ⟨?_, ?_, ?_⟩
    · simp [Rule.restrict, hbr, RestrictUnicode.restrictOther, uniOtherLoop, he1,
        containsUnicode]
    · simp only [Rule.restrict, hbr]
      unfold RestrictNumberOnly.restrictOther
      simp only [numOtherLoop, he2, List.length_nil]
      rw [if_pos (by decide), hnb]
      rfl
    · simp only [Rule.restrict, hbr]
      unfold RestrictStringLength.restrictOther
      cases hmll : ml with
      | none => simp [lenOtherLoop, he1, hmll]
      | some l =>
        have := hml l hmll
        simp only [lenOtherLoop, he1]
        rw [if_neg (by simp only [List.length_nil, Nat.cast_zero]; omega)]

/-- C5 witness: with nonnegative bounds, the field `age` absent from a
plain-text body passes all three rule types. -/
theorem claim_C5_absent_field_passes_witness :
    Rule.restrict (.unicode ⟨[strBytes "age"]⟩)
        ⟨strBytes "text/plain", strBytes "x=1", none, none, []⟩ = .ok ∧
    Rule.restrict (.numberOnly ⟨[strBytes "age"], some 100, some 3⟩)
        ⟨strBytes "text/plain", strBytes "x=1", none, none, []⟩ = .ok ∧
    Rule.restrict (.stringLength ⟨[strBytes "age"], some 5⟩)
        ⟨strBytes "text/plain", strBytes "x=1", none, none, []⟩ = .ok :=
  claim_C5_absent_field_passes (strBytes "age")
    ⟨strBytes "text/plain", strBytes "x=1", none, none, []⟩
    (some 100) (some 3) (some 5)
    (by intro b h; cases h; decide) (by intro b h; cases h; decide)
    (by intro b h; cases h; decide)
    (by
      show goIndex (goToLower (strBytes "x=1")) (goToLower (strBytes "age")) = none
      decide)

/-- C6 counterexample: two failures of the claim as stated. First, with
`Max` set to the platform maximum 2^63-1, the all-digit value
9223372036854775808 (= 2^63, exceeding the bound) passes, because
`strconv.Atoi` clamps the out-of-range parse to the maximum and the
comparison sees `Max` itself. Second, a value violating both bounds fails
with the digits message, not the value message. -/
theorem claim_C6_counterexample :
    Rule.restrict (.numberOnly ⟨[strBytes "n"], some maxInt, none⟩)
        ⟨strBytes "text/plain", strBytes "n=9223372036854775808", none, none, []⟩ = .ok ∧
    (digVal (strBytes "9223372036854775808") : Int) > maxInt ∧
    Rule.restrict (.numberOnly ⟨[strBytes "n"], some 5, some 2⟩)
        ⟨strBytes "text/plain", strBytes "n=100", none, none, []⟩
      = .err ⟨400, errFieldExceedsMaximumDigits (strBytes "n") 2⟩ ∧
    RuleResult.err ⟨400, errFieldExceedsMaximumDigits (strBytes "n") 2⟩
      ≠ .err ⟨400, errFieldExceedsMaximumValue (strBytes "n") 5⟩ := by
  decide

/-- C6 (amended): on the plain-text branch of the numeric rule, an
all-digit field value within both configured bounds passes (provided every
earlier configured field is likewise clean); a value violating the digit
bound fails at once with the digits message naming that field; and a value
violating the value bound — while within the digit bound, with `Max` below
the platform maximum so that `strconv.Atoi`'s clamping cannot mask the
excess — fails with the value message naming that field. -/
theorem claim_C6_numeric_rule_bounds (mx mxd : Option Int) (req : Request)
    (hbr : restrictByContentType req.contentType = .other) :
    (∀ fields : List GoStr, (∀ g ∈ fields, cleanNumField mx mxd req.body g) →
      Rule.restrict (.numberOnly ⟨fields, mx, mxd⟩) req = .ok) ∧
    (∀ (pre post : List GoStr) (f v : GoStr) (d : Int),
      (∀ g ∈ pre, cleanNumField mx mxd req.body g) →
      extractFieldValueForNumberOnly req.body f = some v → v.all isDigitByte = true →
      mxd = some d → (v.length : Int) > d →
      Rule.restrict (.numberOnly ⟨pre ++ f :: post, mx, mxd⟩) req =
        .err ⟨400, errFieldExceedsMaximumDigits f d⟩) ∧
    (∀ (pre post : List GoStr) (f v : GoStr) (m : Int),
      (∀ g ∈ pre, cleanNumField mx mxd req.body g) →
      extractFieldValueForNumberOnly req.body f = some v → v.all isDigitByte = true →
      (∀ d, mxd = some d → (v.length : Int) ≤ d) →
      mx = some m → m < maxInt → (digVal v : Int) > m →
      Rule.restrict (.numberOnly ⟨pre ++ f :: post, mx, mxd⟩) req =
        .err ⟨400, errFieldExceedsMaximumValue f m⟩) := by
  refine ⟨?_, ?_, ?_⟩
  · intro fields hc
    simp only [Rule.restrict, hbr]
    unfold RestrictNumberOnly.restrictOther
    have := numOtherLoop_clean_front ⟨fields, mx, mxd⟩ req.body [] [] fields hc
    simpa using this
  · intro pre post f v d hc hv hdig hmd hgt
    simp only [Rule.restrict, hbr]
    unfold RestrictNumberOnly.restrictOther
    rw [numOtherLoop_clean_front ⟨pre ++ f :: post, mx, mxd⟩ req.body (f :: post) [] pre hc]
    simp only [numOtherLoop, hv]
    rw [if_pos (isNumberOnly_of_digits hdig), numBounds_digits d hmd hgt]
  · intro pre post f v m hc hv hdig hlen hmx hmlt hdv
    simp only [Rule.restrict, hbr]
    unfold RestrictNumberOnly.restrictOther
    rw [numOtherLoop_clean_front ⟨pre ++ f :: post, mx, mxd⟩ req.body (f :: post) [] pre hc]
    simp only [numOtherLoop, hv]
    rw [if_pos (isNumberOnly_of_digits hdig),
      numBounds_value m hmx hlen (goAtoi_digits_gt hdig hmlt hdv)]

/-- C6 witness: at a concrete plain-text request, the pass clause and the
digit-violation clause of the amended claim, applied to the fields `a` (the
clean prefix) and `n` (four digits against a bound of 3). -/
theorem claim_C6_numeric_rule_bounds_witness :
    Rule.restrict (.numberOnly ⟨[strBytes "a"], some 100, some 3⟩)
        ⟨strBytes "text/plain", strBytes "a=7&n=2000", none, none, []⟩ = .ok ∧
    Rule.restrict (.numberOnly ⟨[strBytes "a", strBytes "n"], some 100, some 3⟩)
        ⟨strBytes "text/plain", strBytes "a=7&n=2000", none, none, []⟩
      = .err ⟨400, errFieldExceedsMaximumDigits (strBytes "n") 3⟩ := by
  have h := claim_C6_numeric_rule_bounds (some 100) (some 3)
    ⟨strBytes "text/plain", strBytes "a=7&n=2000", none, none, []⟩ (by decide)
  constructor
  · refine h.1 [strBytes "a"] ?_
    intro g hg
    rw [List.mem_singleton] at hg
    subst hg
    exact ⟨strBytes "7", by decide, by decide,
      fun d hd => by cases hd; decide, fun b hb => by cases hb; decide⟩
  · refine h.2.1 [strBytes "a"] [] (strBytes "n") (strBytes "2000") 3 ?_ (by decide)
      (by decide) rfl (by decide)
    intro g hg
    rw [List.mem_singleton] at hg
    subst hg
    exact ⟨strBytes "7", by decide, by decide,
      fun d hd => by cases hd; decide, fun b hb => by cases hb; decide⟩

/-- C9 counterexample: lowercasing can change the body's byte length (four
U+023A characters, two bytes each, lowercase to three-byte U+2C65), and the
extractors transfer indices computed on the lowercased body onto the
original body. In the first input (`aȺȺȺȺb`, 10 bytes, lowercased 14) the
generic extractor takes the slice `body[1:13]` — out of range; in the
second (`ȺȺȺȺab`, field `ab`) the number-only extractor takes
`body[14:10]`. Both evaluations end in the modelled panic. -/
theorem claim_C9_counterexample :
    extractFieldValue [97, 200, 186, 200, 186, 200, 186, 200, 186, 98] (strBytes "a")
        ⟨[strBytes "a", strBytes "b"]⟩ = none ∧
    extractFieldValueForNumberOnly [200, 186, 200, 186, 200, 186, 200, 186, 97, 98]
        (strBytes "ab") = none := by
  decide

/-- C9 (amended): whenever lowercasing preserves the body's byte length —
in particular for any ASCII body — both extractors return a value: every
slice they take of the original body is in range (the modelled panic,
`none`, is impossible). -/
theorem claim_C9_extractor_slice_safety (body field : GoStr) (r : RestrictUnicode)
    (hlen : (goToLower body).length = body.length) :
    extractFieldValue body field r ≠ none ∧
    extractFieldValueForNumberOnly body field ≠ none := by
  constructor
  · cases hgi : goIndex (goToLower body) (goToLower field) with
    | none => simp [extractFieldValue, hgi]
    | some sp =>
      have h1 : sp + (goToLower field).length ≤ (goToLower body).length := goIndex_some_le hgi
      have hvs_le : skipSeps body (sp + (goToLower field).length) ≤ body.length :=
        skipSeps_le _ _ (by omega)
      have hfe := findEnd_bounds (goToLower body) (skipSeps body (sp + (goToLower field).length))
        field body.length hvs_le (le_of_eq hlen) r.Fields
      simp only [extractFieldValue, hgi]
      rw [if_neg (fun hc => absurd hc.1 (by omega)), if_pos ⟨hfe.1, hfe.2⟩]
      simp
  · cases hgi : goIndex (goToLower body) (goToLower field) with
    | none => simp [extractFieldValueForNumberOnly, hgi]
    | some sp =>
      have h1 : sp + (goToLower field).length ≤ (goToLower body).length := goIndex_some_le hgi
      have hvs_le : skipSeps body (sp + (goToLower field).length) ≤ body.length :=
        skipSeps_le _ _ (by omega)
      have hend_le := findAmpEnd_le body (skipSeps body (sp + (goToLower field).length))
      have hend_ge := findAmpEnd_ge body (skipSeps body (sp + (goToLower field).length)) hvs_le
      simp only [extractFieldValueForNumberOnly, hgi]
      rw [if_pos ⟨hend_ge, hend_le⟩]
      simp

/-- C9 witness: on a concrete ASCII body (lowercasing preserves its
length), both extractors return a value. -/
theorem claim_C9_extractor_slice_safety_witness :
    extractFieldValue (strBytes "name=Gopher&age=200") (strBytes "age")
        ⟨[strBytes "name", strBytes "age"]⟩ ≠ none ∧
    extractFieldValueForNumberOnly (strBytes "name=Gopher&age=200") (strBytes "age")
      ≠ none :=
  claim_C9_extractor_slice_safety (strBytes "name=Gopher&age=200") (strBytes "age")
    ⟨[strBytes "name", strBytes "age"]⟩ (by decide)

/-- C10: in the JSON branch of the numeric rule, a configured field decoded
as a JSON number never joins the digits-only violators; the value is
truncated toward zero (exactly, whenever the truncation is within the
platform range) and only the configured bounds are checked against it — the
digit bound against the length of the truncated integer's decimal
rendering, then the value bound — so the evaluation is the bound checks'
outcome: pass, the digits failure, or the value failure. -/
theorem claim_C10_json_number_field (f : GoStr) (q : Rat) (mx mxd : Option Int)
    (req : Request) (m : List (GoStr × JsonVal))
    (hbr : restrictByContentType req.contentType = .json)
    (hp : req.jsonParsed = some m) (hv : lookupJson m f = some (.num q)) :
    (Rule.restrict (.numberOnly ⟨[f], mx, mxd⟩) req =
      match numBounds mxd mx f (goItoa (goFloatToInt q)).length (goFloatToInt q) with
      | some e => RuleResult.err e
      | none => .ok) ∧
    (Rule.restrict (.numberOnly ⟨[f], mx, mxd⟩) req = .ok ∨
      (∃ d, mxd = some d ∧ Rule.restrict (.numberOnly ⟨[f], mx, mxd⟩) req
        = .err ⟨400, errFieldExceedsMaximumDigits f d⟩) ∨
      (∃ b, mx = some b ∧ Rule.restrict (.numberOnly ⟨[f], mx, mxd⟩) req
        = .err ⟨400, errFieldExceedsMaximumValue f b⟩)) ∧
    (minInt ≤ ratTrunc q → ratTrunc q ≤ maxInt → goFloatToInt q = ratTrunc q) := by
  have h1 : Rule.restrict (.numberOnly ⟨[f], mx, mxd⟩) req =
      match numBounds mxd mx f (goItoa (goFloatToInt q)).length (goFloatToInt q) with
      | some e => RuleResult.err e
      | none => .ok := by
    simp only [Rule.restrict, hbr]
    unfold RestrictNumberOnly.restrictJSON
    rw [hp]
    simp only [numJsonLoop, hv]
    cases numBounds mxd mx f (goItoa (goFloatToInt q)).length (goFloatToInt q) <;> rfl
  refine ⟨h1, ?_, ?_⟩
  · rcases numBounds_cases mxd mx f (goItoa (goFloatToInt q)).length (goFloatToInt q) with
      h | ⟨d, hd, h⟩ | ⟨b, hb, h⟩
    · exact Or.inl (by rw [h1, h])
    · exact Or.inr (Or.inl ⟨d, hd, by rw [h1, h]⟩)
    · exact Or.inr (Or.inr ⟨b, hb, by rw [h1, h]⟩)
  · intro hlo hhi
    unfold goFloatToInt
    rw [if_neg (by omega), if_neg (by omega)]

/-- C10 witness: the JSON value -7/2 (negative and fractional) truncates to
-3 and is judged only against the Max bound -4, failing with the value
message — not the digits-only message. -/
theorem claim_C10_json_number_field_witness :
    Rule.restrict (.numberOnly ⟨[strBytes "n"], some (-4), none⟩)
        ⟨MIMEApplicationJSON, strBytes "x",
          some [(strBytes "n", .num (mkRat (-7) 2))], none, []⟩
      = .err ⟨400, errFieldExceedsMaximumValue (strBytes "n") (-4)⟩ ∧
    goFloatToInt (mkRat (-7) 2) = ratTrunc (mkRat (-7) 2) := by
  have h := claim_C10_json_number_field (strBytes "n") (mkRat (-7) 2) (some (-4)) none
    ⟨MIMEApplicationJSON, strBytes "x", some [(strBytes "n", .num (mkRat (-7) 2))], none, []⟩
    [(strBytes "n", .num (mkRat (-7) 2))] (by decide) rfl (by decide)
  refine ⟨?_, h.2.2 (by decide) (by decide)⟩
  rw [h.1]
  decide

/-- C8 witness: the verdict is unchanged by a second evaluation, here
against the same body after the locals store gained an entry. -/
theorem claim_C8_idempotent_verdict_witness :
    Rule.restrict (.unicode ⟨[strBytes "name"]⟩)
        ⟨strBytes "text/plain", strBytes "name=ok", none, none, []⟩
      = Rule.restrict (.unicode ⟨[strBytes "name"]⟩)
        ⟨strBytes "text/plain", strBytes "name=ok", none, none,
          [(strBytes "verdict", none)]⟩ :=
  claim_C8_idempotent_verdict _ _ _ rfl rfl rfl rfl

end FiberValidator
